import Mathlib

/-!
Shallow embedding of `src/include/mockturtle/algorithms/simulation_cec.hpp`
(simulation-based combinational equivalence checking).

Machine integers (`uint32_t`) are modelled as `Nat`; the one place where
32-bit overflow is reachable through defined C++ behaviour — the unsigned
multiplication in the memory-budget test of `compute_split_var` — carries an
explicit `% 2 ^ 32`.  Shift amounts stay below the width on every
defined-behaviour execution, so shifts are modelled by exact powers of two.

The truth-table type and its operations (construct-as-zero, complement,
per-variable projection, zero test) and the miter / network-evaluator
collaborators live outside this file s source directory; they are modelled
from the specification where marked.
-/

/-- Model of `kitty::dynamic_truth_table`: a table over `num_vars` variables,
holding one bit per position; only positions `< 2 ^ num_vars` are meaningful
and only those are inspected by the zero test. -/
structure dynamic_truth_table where
  num_vars : ℕ
  bits : ℕ → Bool

/-- Modelled from the spec: the external truth-table constructor
`kitty::dynamic_truth_table tt(n)` — the all-0 table over `n` variables. -/
def tt_const0 (n : ℕ) : dynamic_truth_table :=
  ⟨n, fun _ => false⟩

/-- Modelled from the spec: the external bitwise complement `operator~`. -/
def tt_not (t : dynamic_truth_table) : dynamic_truth_table :=
  ⟨t.num_vars, fun p => ! t.bits p⟩

/-- Modelled from the spec: the external `kitty::create_nth_var` — position
`p` of the projection table for variable `i` holds bit `i` of `p`. -/
def create_nth_var (n i : ℕ) : dynamic_truth_table :=
  ⟨n, fun p => p.testBit i⟩

/-- Modelled from the spec: the external `kitty::is_const0` zero test over the
`2 ^ num_vars` meaningful positions. -/
def is_const0 (t : dynamic_truth_table) : Bool :=
  decide (∀ p < 2 ^ t.num_vars, t.bits p = false)

/-- Modelled from the spec: bitwise XOR of two tables, used by the miter
collaborator (outputs of the miter are pairwise XORs). -/
def tt_xor (a b : dynamic_truth_table) : dynamic_truth_table :=
  ⟨a.num_vars, fun p => Bool.xor (a.bits p) (b.bits p)⟩

/-- `mockturtle::detail::part_simulator` state: split variable count and
round index (both `uint32_t` in the source). -/
structure part_simulator where
  split_var : ℕ
  round : ℕ

/-- `part_simulator::compute_constant`: all-0 table, complemented when
`value` is true. -/
def part_simulator.compute_constant (s : part_simulator) (value : Bool) :
    dynamic_truth_table :=
  if value then tt_not (tt_const0 s.split_var) else tt_const0 s.split_var

/-- `part_simulator::compute_pi`: a split input gets its projection table;
a non-split input starts from the all-0 table and is complemented exactly
when bit `index - split_var` of the round index is 0. -/
def part_simulator.compute_pi (s : part_simulator) (index : ℕ) :
    dynamic_truth_table :=
  if index < s.split_var then create_nth_var s.split_var index
  else if (s.round >>> (index - s.split_var)) &&& 1 = 0 then
    tt_not (tt_const0 s.split_var)
  else tt_const0 s.split_var

/-- `part_simulator::compute_not`: bitwise complement. -/
def part_simulator.compute_not (_s : part_simulator)
    (value : dynamic_truth_table) : dynamic_truth_table :=
  tt_not value

/-- The memory-budget condition of the `compute_split_var` search loop:
`(32 + (1 << (m - 3))) * V <= (1 << 29)` evaluated, as in the source, in
unsigned 32-bit arithmetic (the product wraps modulo `2 ^ 32`). -/
def scond (V m : ℕ) : Bool :=
  decide ((32 + 2 ^ (m - 3)) * V % 2 ^ 32 ≤ 2 ^ 29)

/-- The `while (m <= n && cond) m++` search of `compute_split_var`; `fuel`
counts the remaining values of `m` allowed by the `m <= n` guard. -/
def split_go (V : ℕ) : ℕ → ℕ → ℕ
  | 0, m => m
  | fuel + 1, m => if scond V m then split_go V fuel (m + 1) else m

/-- `simulation_cec_impl::compute_split_var`: `n` for `n ≤ 6`, otherwise the
search from 7 upward bounded by `n`, returning the final `m - 1`. -/
def compute_split_var (n V : ℕ) : ℕ :=
  if n ≤ 6 then n
  else split_go V (n - 6) 7 - 1

/-- `simulation_cec_impl::compute_round`: `1 << (n - sp)`. -/
def compute_round (n sp : ℕ) : ℕ :=
  2 ^ (n - sp)

/-- Model of a combinational network together with the external evaluator
`simulate(ntk, psim)`.  `sim` is modelled from the spec: the collaborator
that walks the network in topological order under a given partial simulator
and returns one truth table per primary output. -/
structure Ntk where
  num_pis : ℕ
  num_pos : ℕ
  num_gates : ℕ
  sim : part_simulator → List dynamic_truth_table

/-- One round of `simulation_cec_impl::run`: evaluate the network under
`part_simulator(split_var, i)` and test every output table for zero. -/
def round_ok (ntk : Ntk) (split_var i : ℕ) : Bool :=
  (ntk.sim ⟨split_var, i⟩).all (fun out => is_const0 out)

/-- The round loop of `simulation_cec_impl::run`: returns `false` on the
first round with a nonzero output table, `true` when the fuel (the number of
remaining rounds) is exhausted. -/
def run_loop (ntk : Ntk) (split_var : ℕ) : ℕ → ℕ → Bool
  | 0, _ => true
  | fuel + 1, i =>
    if round_ok ntk split_var i then run_loop ntk split_var fuel (i + 1)
    else false

/-- `mockturtle::simulation_cec_stats`: zero-initialised statistics. -/
structure simulation_cec_stats where
  split_var : ℕ := 0
  rounds : ℕ := 0
deriving DecidableEq

/-- `simulation_cec_impl::run`: computes `split_var` and `rounds`, stores
them in the statistics, then iterates the rounds.  Returned as the pair of
the Boolean verdict and the final statistics. -/
def run (ntk : Ntk) : Bool × simulation_cec_stats :=
  let n := ntk.num_pis
  let V := ntk.num_gates
  let split_var := compute_split_var n V
  let rounds := compute_round n split_var
  (run_loop ntk split_var rounds 0, ⟨split_var, rounds⟩)

/-- Modelled from the spec: the external `miter` collaborator — fails on
mismatched arity, otherwise produces a combined network whose outputs are
the pairwise XORs of the two networks outputs. -/
def miter (a b : Ntk) : Option Ntk :=
  if a.num_pis = b.num_pis ∧ a.num_pos = b.num_pos then
    some ⟨a.num_pis, a.num_pos, a.num_gates + b.num_gates + a.num_pos,
          fun ps => List.zipWith tt_xor (a.sim ps) (b.sim ps)⟩
  else none

/-- `mockturtle::simulation_cec`: the user entry point.  The second argument
of the result models the contents of the caller-supplied statistics pointer
(`none` = no pointer passed); the source initialises `result = false`,
returns `nullopt` only on the more-than-40-inputs guard, and otherwise
returns `result` — also when miter construction failed. -/
def simulation_cec (ntk1 ntk2 : Ntk) (pst : Option simulation_cec_stats) :
    Option Bool × Option simulation_cec_stats :=
  if 40 < ntk1.num_pis then (none, pst)
  else
    match miter ntk1 ntk2 with
    | some ntk_miter =>
      let r := run ntk_miter
      (some r.1, if pst.isSome then some r.2 else pst)
    | none => (some false, if pst.isSome then some {} else pst)

/-! ## Properties of the split-variable search -/

lemma scond_true_iff (V m : ℕ) :
    scond V m = true ↔ (32 + 2 ^ (m - 3)) * V % 2 ^ 32 ≤ 2 ^ 29 := by
  simp [scond]

lemma split_go_ge (V : ℕ) : ∀ fuel m, m ≤ split_go V fuel m := by
  intro fuel
  induction fuel with
  | zero => intro m; exact le_refl m
  | succ fuel ih =>
    intro m
    cases h : scond V m with
    | false => simp [split_go, h]
    | true =>
      simp only [split_go, h, if_true]
      have := ih (m + 1)
      omega

lemma split_go_le (V : ℕ) : ∀ fuel m, split_go V fuel m ≤ m + fuel := by
  intro fuel
  induction fuel with
  | zero => intro m; simp [split_go]
  | succ fuel ih =>
    intro m
    cases h : scond V m with
    | false => simp [split_go, h]
    | true =>
      simp only [split_go, h, if_true]
      have := ih (m + 1)
      omega

lemma split_go_all_scond (V : ℕ) :
    ∀ fuel m j, m ≤ j → j < split_go V fuel m → scond V j = true := by
  intro fuel
  induction fuel with
  | zero =>
    intro m j h1 h2
    simp only [split_go] at h2
    omega
  | succ fuel ih =>
    intro m j h1 h2
    cases h : scond V m with
    | false => simp [split_go, h] at h2; omega
    | true =>
      simp only [split_go, h, if_true] at h2
      rcases Nat.eq_or_lt_of_le h1 with rfl | hlt
      · exact h
      · exact ih (m + 1) j hlt h2

lemma split_go_stop (V : ℕ) :
    ∀ fuel m, split_go V fuel m < m + fuel →
      scond V (split_go V fuel m) = false := by
  intro fuel
  induction fuel with
  | zero => intro m h; simp only [split_go] at h; omega
  | succ fuel ih =>
    intro m h
    cases hc : scond V m with
    | false => simp [split_go, hc]
    | true =>
      simp only [split_go, hc, if_true] at h ⊢
      exact ih (m + 1) (by omega)

lemma split_go_fuel_mono (V : ℕ) :
    ∀ fuel m, split_go V fuel m ≤ split_go V (fuel + 1) m := by
  intro fuel
  induction fuel with
  | zero =>
    intro m
    cases h : scond V m with
    | false => simp [split_go, h]
    | true => simp [split_go, h]
  | succ fuel ih =>
    intro m
    cases h : scond V m with
    | false => simp [split_go, h]
    | true =>
      simp only [split_go, h, if_true]
      exact ih (m + 1)

/-- C5 (counterexample): at `n = 7`, `V = 2 ^ 31` the unsigned 32-bit product
`48 * 2 ^ 31` wraps to 0, so the search advances past `m = 7` and returns 7,
although the exact-arithmetic bound `(32 + 2 ^ (7 - 3)) * V ≤ 2 ^ 29` claimed
by the specification is already violated at 7: the returned value is not one
the claimed bound ever admitted. -/
theorem c5_counterexample :
    compute_split_var 7 (2 ^ 31) = 7 ∧
      ¬ (32 + 2 ^ (7 - 3)) * 2 ^ 31 ≤ 2 ^ 29 := by
  constructor
  · decide
  · decide

/-- C5 (amended): the claim holds with the budget test read, as in the
source, in unsigned 32-bit arithmetic (product reduced modulo `2 ^ 32`):
for `n > 6` the result lies in `[6, n]`, every candidate from 7 up to the
result satisfied the wrapped bound, and if the result is below `n` the next
candidate violates it. -/
theorem c5_split_var_search (n V : ℕ) (h : 6 < n) :
    (6 ≤ compute_split_var n V ∧ compute_split_var n V ≤ n)
    ∧ (∀ m, 7 ≤ m → m ≤ compute_split_var n V →
        (32 + 2 ^ (m - 3)) * V % 2 ^ 32 ≤ 2 ^ 29)
    ∧ (compute_split_var n V < n →
        ¬ (32 + 2 ^ (compute_split_var n V + 1 - 3)) * V % 2 ^ 32 ≤ 2 ^ 29) := by
  have hn : ¬ n ≤ 6 := by omega
  have hg1 : 7 ≤ split_go V (n - 6) 7 := split_go_ge V (n - 6) 7
  have hg2 : split_go V (n - 6) 7 ≤ 7 + (n - 6) := split_go_le V (n - 6) 7
  simp only [compute_split_var, hn, if_false]
  refine ⟨⟨by omega, by omega⟩, ?_, ?_⟩
  · intro m hm1 hm2
    have : m < split_go V (n - 6) 7 := by omega
    have := split_go_all_scond V (n - 6) 7 m hm1 this
    exact (scond_true_iff V m).mp this
  · intro hlt
    have hstop : split_go V (n - 6) 7 < 7 + (n - 6) := by omega
    have := split_go_stop V (n - 6) 7 hstop
    have heq : split_go V (n - 6) 7 - 1 + 1 = split_go V (n - 6) 7 := by omega
    rw [heq]
    intro hcontra
    rw [(scond_true_iff V _).mpr hcontra] at this
    exact Bool.true_eq_false.mp this

/-- C5 (witness): instantiation of the amended theorem at `n = 8`, `V = 1`. -/
theorem c5_split_var_search_witness :
    6 < 8 ∧
    ((6 ≤ compute_split_var 8 1 ∧ compute_split_var 8 1 ≤ 8)
    ∧ (∀ m, 7 ≤ m → m ≤ compute_split_var 8 1 →
        (32 + 2 ^ (m - 3)) * 1 % 2 ^ 32 ≤ 2 ^ 29)
    ∧ (compute_split_var 8 1 < 8 →
        ¬ (32 + 2 ^ (compute_split_var 8 1 + 1 - 3)) * 1 % 2 ^ 32 ≤ 2 ^ 29)) :=
  ⟨by decide, c5_split_var_search 8 1 (by decide)⟩

lemma compute_split_var_step (V n : ℕ) :
    compute_split_var n V ≤ compute_split_var (n + 1) V := by
  by_cases h1 : n + 1 ≤ 6
  · have h0 : n ≤ 6 := by omega
    simp [compute_split_var, h0, h1]
  · by_cases h0 : n ≤ 6
    · have hn : n = 6 := by omega
      subst hn
      have := split_go_ge V (6 + 1 - 6) 7
      simp only [compute_split_var, h1, if_false, if_pos (le_refl 6)]
      omega
    · have harith : n + 1 - 6 = (n - 6) + 1 := by omega
      have := split_go_fuel_mono V (n - 6) 7
      simp only [compute_split_var, h0, h1, if_false, harith]
      omega

/-- C7: for fixed gate count `V` the split variable count is non-decreasing
in the input count `n`, and for `n ≤ 6` it equals `n` with a single round. -/
theorem c7_split_var_monotone (V : ℕ) :
    (∀ n1 n2, n1 ≤ n2 → compute_split_var n1 V ≤ compute_split_var n2 V)
    ∧ (∀ n, n ≤ 6 → compute_split_var n V = n ∧ compute_round n n = 1) := by
  constructor
  · intro n1 n2 h
    induction n2, h using Nat.le_induction with
    | base => exact le_refl _
    | succ n hn ih => exact le_trans ih (compute_split_var_step V n)
  · intro n h
    refine ⟨by simp [compute_split_var, h], ?_⟩
    simp [compute_round, Nat.sub_self]

/-- C7 (witness): instantiation at `V = 1`, `n1 = 5`, `n2 = 9`, and the
`n ≤ 6` case at `n = 4`. -/
theorem c7_split_var_monotone_witness :
    (5 ≤ 9 ∧ compute_split_var 5 1 ≤ compute_split_var 9 1)
    ∧ (4 ≤ 6 ∧ compute_split_var 4 1 = 4 ∧ compute_round 4 4 = 1) :=
  ⟨⟨by decide, (c7_split_var_monotone 1).1 5 9 (by decide)⟩,
   ⟨by decide, (c7_split_var_monotone 1).2 4 (by decide)⟩⟩

/-- C6: `compute_round n sp = 2 ^ (n - sp)`, and the round indices
`0 .. rounds - 1`, read bit by bit from bit 0 upward as the fixed values of
the `n - sp` non-split inputs, enumerate every assignment of those inputs
exactly once (the bit-reading map is a bijection). -/
theorem c6_round_coverage (n sp : ℕ) (_h : sp ≤ n) :
    compute_round n sp = 2 ^ (n - sp)
    ∧ Function.Bijective
        (fun i : Fin (compute_round n sp) =>
          fun k : Fin (n - sp) => Nat.testBit i.val k.val) := by
  refine ⟨rfl, ?_⟩
  rw [Fintype.bijective_iff_injective_and_card]
  constructor
  · intro i j hf
    apply Fin.ext
    apply Nat.eq_of_testBit_eq
    intro k
    by_cases hk : k < n - sp
    · exact congrFun hf ⟨k, hk⟩
    · have hik : (i : ℕ) < 2 ^ k :=
        lt_of_lt_of_le i.isLt
          (Nat.pow_le_pow_right (by norm_num) (by omega))
      have hjk : (j : ℕ) < 2 ^ k :=
        lt_of_lt_of_le j.isLt
          (Nat.pow_le_pow_right (by norm_num) (by omega))
      rw [Nat.testBit_lt_two_pow hik, Nat.testBit_lt_two_pow hjk]
  · simp [compute_round, Fintype.card_fun]

/-- C6 (witness): instantiation at `n = 3`, `sp = 1`. -/
theorem c6_round_coverage_witness :
    1 ≤ 3 ∧
    (compute_round 3 1 = 2 ^ (3 - 1)
    ∧ Function.Bijective
        (fun i : Fin (compute_round 3 1) =>
          fun k : Fin (3 - 1) => Nat.testBit i.val k.val)) :=
  ⟨by decide, c6_round_coverage 3 1 (by decide)⟩

/-! ## Properties of the partial simulator -/

/-- C2 (counterexample): with `split_var = 1`, `round = 1`, input index 1 is
a non-split input whose round bit `(1 >>> 0) &&& 1` is 1, so the claim says
`compute_pi` returns the all-1 table (`compute_constant true`); the code
instead leaves the table all-0 — position 0 differs. -/
theorem c2_counterexample :
    (part_simulator.compute_pi ⟨1, 1⟩ 1).bits 0 = false
    ∧ (part_simulator.compute_constant ⟨1, 1⟩ true).bits 0 = true
    ∧ (part_simulator.compute_pi ⟨1, 1⟩ 1).bits 0 ≠
        (part_simulator.compute_constant ⟨1, 1⟩ true).bits 0 := by
  refine ⟨rfl, rfl, ?_⟩
  decide

/-- C2 (amended): for `index < split_var`, `compute_pi` returns the standard
projection table of width `2 ^ split_var`; for `index ≥ split_var` it returns
`compute_constant` applied to the NEGATION of bit `index - split_var` of the
round index — the all-1 table when that bit is 0 and the all-0 table when
that bit is 1. -/
theorem c2_compute_pi (s : part_simulator) (index : ℕ) :
    (index < s.split_var →
      s.compute_pi index = create_nth_var s.split_var index)
    ∧ (s.split_var ≤ index →
      s.compute_pi index =
        s.compute_constant (((s.round >>> (index - s.split_var)) &&& 1) == 0)) := by
  constructor
  · intro h
    simp [part_simulator.compute_pi, h]
  · intro h
    have hlt : ¬ index < s.split_var := by omega
    by_cases hb : (s.round >>> (index - s.split_var)) &&& 1 = 0
    · simp [part_simulator.compute_pi, part_simulator.compute_constant, hlt, hb]
    · simp [part_simulator.compute_pi, part_simulator.compute_constant, hlt, hb]

/-- C2 (witness): instantiation of the amended theorem at
`split_var = 1`, `round = 1`, both at a split index and a non-split index. -/
theorem c2_compute_pi_witness :
    ((0 : ℕ) < 1 ∧
      part_simulator.compute_pi ⟨1, 1⟩ 0 = create_nth_var 1 0)
    ∧ ((1 : ℕ) ≤ 1 ∧
      part_simulator.compute_pi ⟨1, 1⟩ 1 =
        part_simulator.compute_constant ⟨1, 1⟩ ((((1 : ℕ) >>> (1 - 1)) &&& 1) == 0)) :=
  ⟨⟨by decide, (c2_compute_pi ⟨1, 1⟩ 0).1 (by decide)⟩,
   ⟨by decide, (c2_compute_pi ⟨1, 1⟩ 1).2 (by decide)⟩⟩

/-- C10: every table produced by a `part_simulator` with split variable
count `split_var` has exactly `split_var` variables (width `2 ^ split_var`):
`compute_constant` and `compute_pi` return tables of that width, and
`compute_not` preserves the width of its argument. -/
theorem c10_table_widths (s : part_simulator) (v : Bool) (i : ℕ)
    (t : dynamic_truth_table) :
    (s.compute_constant v).num_vars = s.split_var
    ∧ (s.compute_pi i).num_vars = s.split_var
    ∧ (s.compute_not t).num_vars = t.num_vars := by
  refine ⟨?_, ?_, rfl⟩
  · cases v <;> rfl
  · unfold part_simulator.compute_pi
    split
    · rfl
    · split <;> rfl

/-! ## Properties of the round loop -/

lemma run_loop_true_iff (ntk : Ntk) (sv : ℕ) :
    ∀ fuel i0, run_loop ntk sv fuel i0 = true ↔
      ∀ j, i0 ≤ j → j < i0 + fuel → round_ok ntk sv j = true := by
  intro fuel
  induction fuel with
  | zero =>
    intro i0
    constructor
    · intro _ j h1 h2; omega
    · intro _; rfl
  | succ fuel ih =>
    intro i0
    cases h : round_ok ntk sv i0 with
    | false =>
      simp only [run_loop, h, Bool.false_eq_true, if_false]
      constructor
      · intro hfalse; exact absurd hfalse (by simp)
      · intro hall
        have := hall i0 (le_refl i0) (by omega)
        rw [h] at this
        exact absurd this (by simp)
    | true =>
      simp only [run_loop, h, if_true]
      rw [ih (i0 + 1)]
      constructor
      · intro hall j h1 h2
        rcases Nat.eq_or_lt_of_le h1 with rfl | hlt
        · exact h
        · exact hall j hlt (by omega)
      · intro hall j h1 h2
        exact hall j (by omega) (by omega)

lemma run_loop_false_iff (ntk : Ntk) (sv fuel i0 : ℕ) :
    run_loop ntk sv fuel i0 = false ↔
      ∃ j, i0 ≤ j ∧ j < i0 + fuel ∧ round_ok ntk sv j = false := by
  rw [← Bool.not_eq_true, run_loop_true_iff]
  push_neg
  constructor
  · rintro ⟨j, h1, h2, h3⟩
    exact ⟨j, h1, h2, by simpa using h3⟩
  · rintro ⟨j, h1, h2, h3⟩
    exact ⟨j, h1, h2, by simp [h3]⟩

lemma round_ok_false_iff (ntk : Ntk) (sv i : ℕ) :
    round_ok ntk sv i = false ↔
      ∃ t ∈ ntk.sim ⟨sv, i⟩, is_const0 t = false := by
  rw [← Bool.not_eq_true, round_ok, List.all_eq_true]
  push_neg
  constructor
  · rintro ⟨t, h1, h2⟩
    exact ⟨t, h1, by simpa using h2⟩
  · rintro ⟨t, h1, h2⟩
    exact ⟨t, h1, by simp [h2]⟩

/-- C3: `run` returns `false` iff some round in `0 .. rounds - 1` produces a
primary-output table that is not identically zero (equivalently, it returns
`true` iff every output of every round is all-zero); moreover the result on
the first network is already forced by the rounds up to the first failing
one: any network with the same input and gate counts whose evaluator agrees
with it on rounds `0 .. i` (where round `i` is the first with a nonzero
output) also yields `false`, so later rounds are never consulted. -/
theorem c3_run_verdict (ntk : Ntk) :
    ((run ntk).1 = false ↔
      ∃ i < compute_round ntk.num_pis
          (compute_split_var ntk.num_pis ntk.num_gates),
        ∃ t ∈ ntk.sim ⟨compute_split_var ntk.num_pis ntk.num_gates, i⟩,
          is_const0 t = false)
    ∧ (∀ i < compute_round ntk.num_pis
          (compute_split_var ntk.num_pis ntk.num_gates),
        (∃ t ∈ ntk.sim ⟨compute_split_var ntk.num_pis ntk.num_gates, i⟩,
          is_const0 t = false) →
        (∀ j < i, ∀ t ∈ ntk.sim ⟨compute_split_var ntk.num_pis ntk.num_gates, j⟩,
          is_const0 t = true) →
        ∀ ntk2 : Ntk, ntk2.num_pis = ntk.num_pis →
          ntk2.num_gates = ntk.num_gates →
          (∀ j ≤ i, ntk2.sim ⟨compute_split_var ntk.num_pis ntk.num_gates, j⟩ =
            ntk.sim ⟨compute_split_var ntk.num_pis ntk.num_gates, j⟩) →
          (run ntk2).1 = false) := by
  constructor
  · rw [run, run_loop_false_iff]
    constructor
    · rintro ⟨j, _, h2, h3⟩
      exact ⟨j, by omega, (round_ok_false_iff ntk _ j).mp h3⟩
    · rintro ⟨j, h1, h2⟩
      exact ⟨j, by omega, by omega, (round_ok_false_iff ntk _ j).mpr h2⟩
  · intro i hi hbad _hfirst ntk2 hp hg hagree
    rw [run, run_loop_false_iff]
    refine ⟨i, by omega, by rw [hp, hg]; omega, ?_⟩
    rw [hp, hg, round_ok_false_iff, hagree i (le_refl i)]
    exact hbad

/-- A network whose single output is constantly 1 under every simulator:
`run` must answer `false` on it, used as a concrete witness network. -/
def ntkBad : Ntk :=
  ⟨1, 1, 1, fun ps => [tt_not (tt_const0 ps.split_var)]⟩

/-- C3 (witness): instantiation of the early-exit part of the verdict
theorem at the concrete network `ntkBad` (first round already fails). -/
theorem c3_run_verdict_witness : (run ntkBad).1 = false :=
  (c3_run_verdict ntkBad).2 0 (by decide)
    ⟨tt_not (tt_const0 (compute_split_var 1 1)), by simp [ntkBad], by decide⟩
    (by omega) ntkBad rfl rfl (fun j _ => rfl)

/-! ## Properties of the entry point -/

/-- C8: `run` stores the computed `split_var` and `rounds` in the statistics
on every return — including an early `false` return, since the loop never
touches them — and whenever the miter was constructed, `simulation_cec`
copies exactly those statistics to the caller-supplied pointer. -/
theorem c8_stats_recorded (ntk : Ntk) :
    ((run ntk).2 =
      ⟨compute_split_var ntk.num_pis ntk.num_gates,
       compute_round ntk.num_pis
         (compute_split_var ntk.num_pis ntk.num_gates)⟩)
    ∧ (∀ a b : Ntk, ∀ st0 : simulation_cec_stats, ∀ m : Ntk,
        miter a b = some m → ¬ 40 < a.num_pis →
        (simulation_cec a b (some st0)).2 = some (run m).2) := by
  refine ⟨rfl, ?_⟩
  intro a b st0 m hm h40
  simp [simulation_cec, h40, hm]

/-- A one-input, one-output, gate-free network whose output is constant 0
under every simulator; concrete witness network. -/
def ntkA : Ntk :=
  ⟨1, 1, 0, fun ps => [tt_const0 ps.split_var]⟩

/-- A two-input network, arity-incompatible with `ntkA`. -/
def ntkB : Ntk :=
  ⟨2, 1, 0, fun ps => [tt_const0 ps.split_var]⟩

/-- The miter of `ntkA` with itself, written exactly as `miter` builds it. -/
def mAA : Ntk :=
  ⟨ntkA.num_pis, ntkA.num_pos, ntkA.num_gates + ntkA.num_gates + ntkA.num_pos,
   fun ps => List.zipWith tt_xor (ntkA.sim ps) (ntkA.sim ps)⟩

lemma miter_ntkA_ntkA : miter ntkA ntkA = some mAA := rfl

/-- C8 (witness): instantiation of the copy-to-caller part at `ntkA` against
itself with a default statistics object. -/
theorem c8_stats_recorded_witness :
    (simulation_cec ntkA ntkA (some {})).2 = some (run mAA).2 :=
  (c8_stats_recorded ntkA).2 ntkA ntkA {} mAA miter_ntkA_ntkA (by decide)

/-- C4: with more than 40 primary inputs on the first network the entry
point answers `none` regardless of the second network, returning before the
caller-supplied statistics are ever written (they stay as passed in). -/
theorem c4_bound_enforcement (a b : Ntk)
    (pst : Option simulation_cec_stats) (h : 40 < a.num_pis) :
    simulation_cec a b pst = (none, pst) := by
  simp [simulation_cec, h]

/-- A 41-input network, above the supported bound. -/
def ntk41 : Ntk :=
  ⟨41, 1, 0, fun ps => [tt_const0 ps.split_var]⟩

/-- C4 (witness): instantiation at the 41-input network with a default
statistics object supplied. -/
theorem c4_bound_enforcement_witness :
    simulation_cec ntk41 ntkA (some {}) = (none, some {}) :=
  c4_bound_enforcement ntk41 ntkA (some {}) (by decide)

/-- C1 (counterexample): `ntkA` has 1 ≤ 40 primary inputs and its miter with
the two-input `ntkB` fails, yet `simulation_cec` returns the present value
`false` (the default-initialised `result`), not the absent optional the
claim requires. -/
theorem c1_counterexample :
    miter ntkA ntkB = none
    ∧ ¬ 40 < ntkA.num_pis
    ∧ (simulation_cec ntkA ntkB none).1 = some false
    ∧ (simulation_cec ntkA ntkB none).1 ≠ none := by
  refine ⟨rfl, by decide, rfl, ?_⟩
  intro h
  simp [simulation_cec, miter, ntkA, ntkB] at h

/-- C1 (amended): when the first network has at most 40 primary inputs and
miter construction fails, `simulation_cec` returns the present Boolean
`false` (the default-initialised result) — not the absent optional. -/
theorem c1_miter_fail_returns_false (a b : Ntk)
    (pst : Option simulation_cec_stats) (h40 : ¬ 40 < a.num_pis)
    (hm : miter a b = none) :
    (simulation_cec a b pst).1 = some false := by
  simp [simulation_cec, h40, hm]

/-- C1 (witness): instantiation at the arity-mismatched pair
`ntkA`, `ntkB`. -/
theorem c1_miter_fail_returns_false_witness :
    (simulation_cec ntkA ntkB none).1 = some false :=
  c1_miter_fail_returns_false ntkA ntkB none (by decide) rfl

/-! ## Reflexivity -/

lemma is_const0_tt_xor_self (t : dynamic_truth_table) :
    is_const0 (tt_xor t t) = true := by
  simp only [is_const0, tt_xor, decide_eq_true_eq]
  intro p _
  exact Bool.xor_self (t.bits p)

lemma zipWith_xor_self_all_const0 (l : List dynamic_truth_table) :
    (List.zipWith tt_xor l l).all (fun out => is_const0 out) = true := by
  induction l with
  | nil => rfl
  | cons t l ih =>
    simp only [List.zipWith_cons_cons, List.all_cons, ih,
      is_const0_tt_xor_self, Bool.and_self]

lemma run_loop_all_ok (ntk : Ntk) (sv : ℕ)
    (h : ∀ i, round_ok ntk sv i = true) :
    ∀ fuel i0, run_loop ntk sv fuel i0 = true := by
  intro fuel
  induction fuel with
  | zero => intro i0; rfl
  | succ fuel ih =>
    intro i0
    simp only [run_loop, h i0, if_true]
    exact ih (i0 + 1)

/-- C9: a network with at most 40 primary inputs is always reported
equivalent to itself — the self-miter always constructs (equal arity) and
each of its outputs is the XOR of an output table with itself, identically
zero in every round, so `run` returns `true`. -/
theorem c9_reflexivity (a : Ntk) (pst : Option simulation_cec_stats)
    (h : ¬ 40 < a.num_pis) :
    (simulation_cec a a pst).1 = some true := by
  have hm : miter a a =
      some ⟨a.num_pis, a.num_pos, a.num_gates + a.num_gates + a.num_pos,
            fun ps => List.zipWith tt_xor (a.sim ps) (a.sim ps)⟩ := by
    simp [miter]
  simp only [simulation_cec, h, if_false, hm, run]
  congr 1
  exact run_loop_all_ok _ _
    (fun i => by
      simp only [round_ok]
      exact zipWith_xor_self_all_const0 _) _ _

/-- C9 (witness): instantiation at the concrete network `ntkA`. -/
theorem c9_reflexivity_witness :
    (simulation_cec ntkA ntkA none).1 = some true :=
  c9_reflexivity ntkA none (by decide)
